import Mathlib

/-!
Verification of the anomaly-detection core of `biwy.py`, a periodic monitor
that tracks a visits-per-location ratio, keeps a bounded rolling window of
historical ratios, and flags anomalies via residuals of a seasonal-trend
decomposition.

Shallow embedding notes:
* Python floats are modelled as real numbers (`ℝ`) for the statistical core
  and as rationals (`ℚ`) where exact evaluation is wanted; list values in the
  generic window-maintenance code are a type parameter, as Python lists are
  heterogeneous containers.
* The external STL decomposition (`statsmodels.tsa.seasonal.STL`) is a
  third-party library, not code of this repository; it is modelled as an
  abstract parameter `stlResid : List ℝ → Option (List ℝ)` returning the
  residual component, with `none` standing for a raised exception (the
  source wraps the whole fit in `try/except`).
* The `for _ in range(3600): if should_exit: break; time.sleep(1)` sleep
  loop and the `while not should_exit:` cycle loop are modelled as
  fuel-indexed recursions over a poll trace `flag : ℕ → Bool` giving the
  value of the shared exit flag at each successive poll.
-/

open scoped Classical

/-- Embeds lines 241-244 of `biwy.py`:
`ratios_history.append(ratio); if len(ratios_history) > 72: ratios_history.pop(0)`.
Appending is `w ++ [x]`; `pop(0)` is `List.tail`. -/
def window_append {α : Type} (w : List α) (x : α) : List α :=
  if 72 < (w ++ [x]).length then (w ++ [x]).tail else w ++ [x]

/-- Embeds the pure truncation step of `load_ratios_history` (line 177 of
`biwy.py`): `return ratios[-72:]`, keeping only the most recent 72 parsed
entries of the recovered history. -/
def load_ratios_history {α : Type} (l : List α) : List α :=
  l.drop (l.length - 72)

/-- Embeds line 238 of `biwy.py`:
`ratio = (num_visits / num_pizzerias) if num_pizzerias > 0 else 0.0`.
Both counts are natural numbers in the source (`len(...)` and a sum of
`random.randint(3, 15)` draws); the float quotient is modelled in `ℚ`. -/
def compute_ratio (num_visits num_pizzerias : ℕ) : ℚ :=
  if 0 < num_pizzerias then (num_visits : ℚ) / (num_pizzerias : ℚ) else 0

/-- Embeds the inter-cycle sleep loop of `biwy.py` (lines 264-267):
`for _ in range(3600): if should_exit: break; time.sleep(1)`.
`flag i` is the exit flag observed at the i-th per-second poll; the result is
the number of one-second sleeps performed before the loop ends. Each
iteration polls exactly once and sleeps exactly one second, so the flag is
polled at least once per second during the sleep. -/
def sleep_loop_aux (flag : ℕ → Bool) : ℕ → ℕ → ℕ
  | 0, _ => 0
  | fuel + 1, i => if flag i then 0 else sleep_loop_aux flag fuel (i + 1) + 1

/-- The sleep loop as called in `main`: 3600 iterations starting at poll 0. -/
def sleep_loop (flag : ℕ → Bool) : ℕ :=
  sleep_loop_aux flag 3600 0

/-- Embeds the cycle structure of `main` (line 223): `while not should_exit:`
polls the flag once at the top of each cycle; a cycle that starts runs to
completion (the signal handler only sets the flag, it never interrupts the
body), here modelled by the cycle's window append happening atomically
before the next poll. `step i` is the ratio produced by cycle `i`; `fuel`
bounds the number of iterations considered. -/
def main_loop {α : Type} (flag : ℕ → Bool) (step : ℕ → α) :
    ℕ → ℕ → List α → List α
  | 0, _, w => w
  | fuel + 1, i, w =>
    if flag i then w
    else main_loop flag step fuel (i + 1) (window_append w (step i))

/-- Arithmetic mean of a list of reals, as used implicitly by `np.std`.
For the empty list Lean's division-by-zero convention yields 0; the source
never takes the mean of an empty residual array on a reachable path. -/
noncomputable def listMean (xs : List ℝ) : ℝ :=
  xs.sum / xs.length

/-- Embeds `np.std(residuals)` (line 201 of `biwy.py`): numpy's default
`ddof=0` population standard deviation, the square root of the mean squared
deviation from the mean over the full sequence. -/
noncomputable def npStd (xs : List ℝ) : ℝ :=
  Real.sqrt ((xs.map (fun x => (x - listMean xs) ^ 2)).sum / xs.length)

/-- Embeds `detect_anomaly(ratios, threshold=3.0)` (lines 182-211 of
`biwy.py`). The STL decomposition is external library code, abstracted as
`stlResid`, which returns the residual sequence `result.resid` of
`STL(series, period=24, robust=True).fit()` or `none` when the fit raises;
the `try/except` of the source maps every raised exception (a failed fit,
or the `residuals[-1]` index error on an empty residual array, modelled by
`List.getLast?` returning `none`) to the verdict `(False, 0.0)`. Otherwise
the source computes `resid_std = np.std(residuals)`, returns `(False, 0.0)`
when it is zero, and else returns
`(anomaly_score > threshold, anomaly_score)` with
`anomaly_score = abs(latest_residual) / resid_std`. -/
noncomputable def detect_anomaly (stlResid : List ℝ → Option (List ℝ))
    (ratios : List ℝ) (threshold : ℝ) : Bool × ℝ :=
  if ratios.length < 24 then (false, 0)
  else
    match stlResid ratios with
    | none => (false, 0)
    | some residuals =>
      match residuals.getLast? with
      | none => (false, 0)
      | some latest_residual =>
        if npStd residuals = 0 then (false, 0)
        else
          (if |latest_residual| / npStd residuals > threshold then true
            else false,
            |latest_residual| / npStd residuals)

/-- State-passing embedding of `detect_anomaly`, making the caller's list
explicit: the source copies the input into a fresh array
(`series = np.array(ratios)`, line 195) and every subsequent operation
reads `series` or the decomposition output, never writing to `ratios`, so
each return path hands the caller's history back unchanged as the second
component. -/
noncomputable def detect_anomaly_state (stlResid : List ℝ → Option (List ℝ))
    (ratios : List ℝ) (threshold : ℝ) : (Bool × ℝ) × List ℝ :=
  if ratios.length < 24 then ((false, 0), ratios)
  else
    match stlResid ratios with
    | none => ((false, 0), ratios)
    | some residuals =>
      match residuals.getLast? with
      | none => ((false, 0), ratios)
      | some latest_residual =>
        if npStd residuals = 0 then ((false, 0), ratios)
        else
          ((if |latest_residual| / npStd residuals > threshold then true
            else false,
            |latest_residual| / npStd residuals), ratios)

lemma window_append_length {α : Type} (w : List α) (x : α)
    (h : w.length ≤ 72) : (window_append w x).length ≤ 72 := by
  unfold window_append
  by_cases hc : 72 < (w ++ [x]).length
  · rw [if_pos hc]
    simp only [List.length_tail, List.length_append, List.length_singleton]
    omega
  · rw [if_neg hc]
    omega

lemma window_append_eq_drop {α : Type} (w : List α) (x : α)
    (h : w.length ≤ 72) :
    window_append w x = (w ++ [x]).drop ((w ++ [x]).length - 72) := by
  unfold window_append
  by_cases hc : 72 < (w ++ [x]).length
  · rw [if_pos hc]
    have h73 : (w ++ [x]).length - 72 = 1 := by
      simp only [List.length_append, List.length_singleton] at hc ⊢
      omega
    rw [h73, List.drop_one]
  · rw [if_neg hc]
    have h0 : (w ++ [x]).length - 72 = 0 := by omega
    rw [h0, List.drop_zero]

lemma foldl_window_append {α : Type} (xs : List α) :
    ∀ w : List α, w.length ≤ 72 →
      List.foldl window_append w xs = (w ++ xs).drop ((w ++ xs).length - 72) := by
  induction xs with
  | nil =>
    intro w h
    simp [Nat.sub_eq_zero_of_le h]
  | cons x xs ih =>
    intro w h
    rw [List.foldl_cons, ih (window_append w x) (window_append_length w x h),
      window_append_eq_drop w x h]
    have hle : (w ++ [x]).length - 72 ≤ (w ++ [x]).length := Nat.sub_le _ _
    rw [← List.drop_append_of_le_length hle, List.drop_drop]
    have hassoc : w ++ [x] ++ xs = w ++ x :: xs := by
      rw [List.append_assoc, List.singleton_append]
    rw [hassoc]
    refine congrFun (congrArg List.drop ?_) (w ++ x :: xs)
    simp only [List.length_drop, List.length_append, List.length_singleton,
      List.length_cons, List.length_nil]
    omega

/-- Claim C3: the rolling window never contains more than 72 observations:
starting from any window of length at most 72 (the startup state recovered
by `load_ratios_history` is already truncated to at most 72 entries), each
append-then-evict step preserves length at most 72 and keeps exactly the
most recent suffix in arrival (FIFO) order; appending 100 values
sequentially from the empty window leaves exactly the last 72 in original
relative order. -/
theorem claim_C3 :
    (∀ (α : Type) (w : List α) (x : α), w.length ≤ 72 →
        (window_append w x).length ≤ 72)
    ∧ (∀ (α : Type) (w : List α) (x : α), w.length ≤ 72 →
        window_append w x = (w ++ [x]).drop ((w ++ [x]).length - 72))
    ∧ (∀ (α : Type) (l : List α), (load_ratios_history l).length ≤ 72)
    ∧ (∀ (α : Type) (xs : List α), xs.length = 100 →
        List.foldl window_append ([] : List α) xs = xs.drop 28) := by
  refine ⟨fun α w x h => window_append_length w x h,
    fun α w x h => window_append_eq_drop w x h, fun α l => ?_, fun α xs h => ?_⟩
  · unfold load_ratios_history
    simp only [List.length_drop]
    omega
  · have h0 : ([] : List α).length ≤ 72 := by simp
    rw [foldl_window_append xs [] h0]
    simp [h]

/-- Witness for C3 at concrete inputs: 100 appends keep the last 72 values,
and one append at capacity keeps the length at 72. -/
theorem claim_C3_witness :
    List.foldl window_append ([] : List ℕ) (List.range 100)
        = (List.range 100).drop 28
    ∧ (window_append (List.range 72) 72).length ≤ 72 :=
  ⟨claim_C3.2.2.2 ℕ (List.range 100) (by simp),
    claim_C3.1 ℕ (List.range 72) 72 (by simp)⟩

/-- Claim C6: the per-cycle ratio is `visits / count` when `count > 0` and
`0.0` when `count = 0`; the division is guarded by a nonzero denominator and
the result is non-negative (and, being rational, finite). -/
theorem claim_C6 (num_visits num_pizzerias : ℕ) :
    0 ≤ compute_ratio num_visits num_pizzerias
    ∧ (num_pizzerias = 0 → compute_ratio num_visits num_pizzerias = 0)
    ∧ (0 < num_pizzerias → (num_pizzerias : ℚ) ≠ 0
        ∧ compute_ratio num_visits num_pizzerias
            = (num_visits : ℚ) / (num_pizzerias : ℚ)) := by
  refine ⟨?_, fun h => ?_, fun h => ⟨?_, ?_⟩⟩
  · unfold compute_ratio
    split
    · positivity
    · exact le_refl 0
  · simp [compute_ratio, h]
  · exact_mod_cast Nat.pos_iff_ne_zero.mp h
  · simp [compute_ratio, h]

/-- Witness for C6: concrete evaluations of the guarded ratio. -/
theorem claim_C6_witness :
    compute_ratio 10 4 = (10 : ℚ) / 4
    ∧ compute_ratio 7 0 = 0
    ∧ 0 ≤ compute_ratio 10 4 :=
  ⟨((claim_C6 10 4).2.2 (by norm_num)).2,
    (claim_C6 7 0).2.1 rfl,
    (claim_C6 10 4).1⟩

lemma sleep_loop_aux_first (flag : ℕ → Bool) :
    ∀ (fuel m i : ℕ), flag (i + m) = true → (∀ j, j < m → flag (i + j) = false) →
      sleep_loop_aux flag fuel i = min m fuel := by
  intro fuel
  induction fuel with
  | zero =>
    intro m i _ _
    simp [sleep_loop_aux]
  | succ fuel ih =>
    intro m i hm hbefore
    cases m with
    | zero =>
      have h0 : flag i = true := by simpa using hm
      simp [sleep_loop_aux, h0]
    | succ m =>
      have h0 : flag i = false := by simpa using hbefore 0 (Nat.succ_pos m)
      have hm' : flag (i + 1 + m) = true := by
        have : i + 1 + m = i + (m + 1) := by omega
        rw [this]; exact hm
      have hbefore' : ∀ j, j < m → flag (i + 1 + j) = false := by
        intro j hj
        have : i + 1 + j = i + (j + 1) := by omega
        rw [this]; exact hbefore (j + 1) (by omega)
      rw [sleep_loop_aux, if_neg (by simp [h0]), ih m (i + 1) hm' hbefore']
      omega

lemma main_loop_first {α : Type} (flag : ℕ → Bool) (step : ℕ → α) :
    ∀ (fuel m i : ℕ) (w : List α),
      flag (i + m) = true → (∀ j, j < m → flag (i + j) = false) →
      main_loop flag step fuel i w
        = List.foldl window_append w
            ((List.range (min m fuel)).map (fun j => step (i + j))) := by
  intro fuel
  induction fuel with
  | zero =>
    intro m i w _ _
    simp [main_loop]
  | succ fuel ih =>
    intro m i w hm hbefore
    cases m with
    | zero =>
      have h0 : flag i = true := by simpa using hm
      simp [main_loop, h0]
    | succ m =>
      have h0 : flag i = false := by simpa using hbefore 0 (Nat.succ_pos m)
      have hm' : flag (i + 1 + m) = true := by
        have : i + 1 + m = i + (m + 1) := by omega
        rw [this]; exact hm
      have hbefore' : ∀ j, j < m → flag (i + 1 + j) = false := by
        intro j hj
        have : i + 1 + j = i + (j + 1) := by omega
        rw [this]; exact hbefore (j + 1) (by omega)
      rw [main_loop, if_neg (by simp [h0]),
        ih m (i + 1) (window_append w (step i)) hm' hbefore']
      have hmin : min (m + 1) (fuel + 1) = min m fuel + 1 := by omega
      rw [hmin, List.range_succ_eq_map, List.map_cons, List.foldl_cons,
        List.map_map]
      have harg : ∀ j, i + Nat.succ j = i + 1 + j := by intro j; omega
      have hfun : (fun j => step (i + j)) ∘ Nat.succ = fun j => step (i + 1 + j) := by
        funext j
        simp [Function.comp, harg j]
      rw [hfun]
      simp

/-- Claim C7: cancellation is cooperative. The sleep loop polls the exit
flag once per one-second iteration; if the flag first reads true at poll
`m`, the loop stops after exactly `min m 3600` sleeps, i.e. at its next
per-second poll. The cycle loop polls the flag once at the top of every
cycle; if the flag first reads true at top-of-cycle poll `m`, then only the
cycles before `m` run, each one completing its whole window append (no
cycle is aborted mid-computation), and no new cycle begins afterwards. -/
theorem claim_C7 :
    (∀ (flag : ℕ → Bool) (m : ℕ),
        flag m = true → (∀ j, j < m → flag j = false) →
        sleep_loop flag = min m 3600)
    ∧ (∀ (α : Type) (flag : ℕ → Bool) (step : ℕ → α) (fuel m : ℕ) (w : List α),
        flag m = true → (∀ j, j < m → flag j = false) →
        main_loop flag step fuel 0 w
          = List.foldl window_append w ((List.range (min m fuel)).map step)) := by
  constructor
  · intro flag m hm hbefore
    unfold sleep_loop
    exact sleep_loop_aux_first flag 3600 m 0 (by simpa using hm)
      (by intro j hj; simpa using hbefore j hj)
  · intro α flag step fuel m w hm hbefore
    rw [main_loop_first flag step fuel m 0 w (by simpa using hm)
      (by intro j hj; simpa using hbefore j hj)]
    simp

/-- Witness for C7: with a flag that first reads true at poll 2, the sleep
loop sleeps exactly 2 seconds and the cycle loop executes exactly the first
2 cycles. -/
theorem claim_C7_witness :
    sleep_loop (fun i => decide (2 ≤ i)) = min 2 3600
    ∧ main_loop (fun i => decide (2 ≤ i)) (fun i => i) 10 0 ([] : List ℕ)
        = List.foldl window_append ([] : List ℕ)
            ((List.range (min 2 10)).map (fun i => i)) :=
  ⟨claim_C7.1 (fun i => decide (2 ≤ i)) 2 rfl
      (by intro j hj; simp only [decide_eq_false_iff_not]; omega),
    claim_C7.2 ℕ (fun i => decide (2 ≤ i)) (fun i => i) 10 2 [] rfl
      (by intro j hj; simp only [decide_eq_false_iff_not]; omega)⟩

lemma detect_anomaly_short (stlResid : List ℝ → Option (List ℝ))
    (ratios : List ℝ) (threshold : ℝ) (hlen : ratios.length < 24) :
    detect_anomaly stlResid ratios threshold = (false, 0) := by
  unfold detect_anomaly
  rw [if_pos hlen]

lemma detect_anomaly_of_some (stlResid : List ℝ → Option (List ℝ))
    (ratios residuals : List ℝ) (threshold r : ℝ)
    (hlen : ¬ ratios.length < 24) (hfit : stlResid ratios = some residuals)
    (hlast : residuals.getLast? = some r) :
    detect_anomaly stlResid ratios threshold =
      if npStd residuals = 0 then (false, 0)
      else
        (if |r| / npStd residuals > threshold then true else false,
          |r| / npStd residuals) := by
  unfold detect_anomaly
  simp only [hfit, hlast, if_neg hlen]

lemma detect_anomaly_cases (stlResid : List ℝ → Option (List ℝ))
    (ratios : List ℝ) (threshold : ℝ) :
    detect_anomaly stlResid ratios threshold = (false, 0)
    ∨ ∃ residuals r, stlResid ratios = some residuals
        ∧ residuals.getLast? = some r
        ∧ npStd residuals ≠ 0
        ∧ detect_anomaly stlResid ratios threshold =
            (if |r| / npStd residuals > threshold then true else false,
              |r| / npStd residuals) := by
  by_cases hlen : ratios.length < 24
  · exact Or.inl (detect_anomaly_short stlResid ratios threshold hlen)
  · rcases hfit : stlResid ratios with _ | residuals
    · left
      unfold detect_anomaly
      simp only [hfit, if_neg hlen]
    · rcases hlast : residuals.getLast? with _ | r
      · left
        unfold detect_anomaly
        simp only [hfit, hlast, if_neg hlen]
      · by_cases hstd : npStd residuals = 0
        · left
          rw [detect_anomaly_of_some stlResid ratios residuals threshold r
            hlen hfit hlast, if_pos hstd]
        · right
          exact ⟨residuals, r, rfl, hlast, hstd, by
            rw [detect_anomaly_of_some stlResid ratios residuals threshold r
              hlen hfit hlast, if_neg hstd]⟩

lemma npStd_nonneg (xs : List ℝ) : 0 ≤ npStd xs :=
  Real.sqrt_nonneg _

lemma npStd_sq (xs : List ℝ) :
    npStd xs ^ 2 = (xs.map (fun x => (x - listMean xs) ^ 2)).sum / xs.length := by
  unfold npStd
  refine Real.sq_sqrt (div_nonneg ?_ (Nat.cast_nonneg _))
  refine List.sum_nonneg ?_
  intro y hy
  rcases List.mem_map.mp hy with ⟨x, _, rfl⟩
  positivity

lemma npStd_replicate (n : ℕ) (c : ℝ) : npStd (List.replicate n c) = 0 := by
  unfold npStd listMean
  cases n with
  | zero => simp
  | succ n =>
    have hmean : (List.replicate (n + 1) c).sum / ((List.replicate (n + 1) c).length : ℝ) = c := by
      rw [List.sum_replicate, List.length_replicate, nsmul_eq_mul,
        mul_div_cancel_left₀ _ (Nat.cast_ne_zero.mpr (Nat.succ_ne_zero n))]
    rw [hmean]
    simp

lemma getLast_replicate_succ {α : Type} (n : ℕ) (c : α) :
    (List.replicate (n + 1) c).getLast? = some c := by
  rw [List.replicate_succ', List.getLast?_append_of_ne_nil _ (by simp)]
  rfl

lemma detect_anomaly_state_eq (stlResid : List ℝ → Option (List ℝ))
    (ratios : List ℝ) (threshold : ℝ) :
    detect_anomaly_state stlResid ratios threshold
      = (detect_anomaly stlResid ratios threshold, ratios) := by
  unfold detect_anomaly_state detect_anomaly
  by_cases hlen : ratios.length < 24
  · rw [if_pos hlen, if_pos hlen]
  · rw [if_neg hlen, if_neg hlen]
    rcases hfit : stlResid ratios with _ | residuals
    · rfl
    · rcases hlast : residuals.getLast? with _ | r
      · simp only [hlast]
      · by_cases hstd : npStd residuals = 0
        · simp only [hlast, if_pos hstd]
        · simp only [hlast, if_neg hstd]

/-- Claim C1: for a history of length at least 24 whose decomposition
succeeds with a nonzero residual standard deviation, the returned score is
`abs(residual[-1]) / resid_std`, the anomaly flag holds exactly when the
score strictly exceeds the threshold, and a latest residual equal in
magnitude to exactly `threshold * resid_std` yields `is_anomaly = false`
(strict comparison). -/
theorem claim_C1 (stlResid : List ℝ → Option (List ℝ))
    (ratios residuals : List ℝ) (threshold r : ℝ)
    (hlen : 24 ≤ ratios.length)
    (hfit : stlResid ratios = some residuals)
    (hlast : residuals.getLast? = some r)
    (hstd : npStd residuals ≠ 0) :
    (detect_anomaly stlResid ratios threshold).2 = |r| / npStd residuals
    ∧ ((detect_anomaly stlResid ratios threshold).1 = true
        ↔ |r| / npStd residuals > threshold)
    ∧ (|r| = threshold * npStd residuals →
        (detect_anomaly stlResid ratios threshold).1 = false) := by
  have h := detect_anomaly_of_some stlResid ratios residuals threshold r
    (by omega) hfit hlast
  rw [if_neg hstd] at h
  rw [h]
  refine ⟨rfl, ?_, ?_⟩
  · by_cases hsc : |r| / npStd residuals > threshold
    · simp [hsc]
    · simp [hsc]
  · intro heq
    have hsc : |r| / npStd residuals = threshold := by
      rw [heq, mul_div_assoc, div_self hstd, mul_one]
    simp [hsc]

/-- Witness for C1: a concrete successful decomposition whose residuals are
twelve copies of 3 followed by twelve copies of -3 (mean 0, population
standard deviation 3). The latest residual is -3, so with threshold 1 the
score is exactly 1 = threshold and the strict comparison yields no anomaly,
exercising the threshold boundary. -/
theorem claim_C1_witness :
    detect_anomaly
        (fun _ => some (List.replicate 12 (3 : ℝ) ++ List.replicate 12 (-3)))
        (List.replicate 24 (0 : ℝ)) 1 = (false, 1) := by
  have hlast : (List.replicate 12 (3 : ℝ) ++ List.replicate 12 (-3)).getLast?
      = some (-3) := by
    rw [List.getLast?_append_of_ne_nil _ (by simp), getLast_replicate_succ 11 (-3 : ℝ)]
  have hmean : listMean (List.replicate 12 (3 : ℝ) ++ List.replicate 12 (-3)) = 0 := by
    unfold listMean
    norm_num [List.sum_append, List.sum_replicate, nsmul_eq_mul]
  have hnp : npStd (List.replicate 12 (3 : ℝ) ++ List.replicate 12 (-3)) = 3 := by
    unfold npStd
    rw [hmean]
    have hsum : ((List.replicate 12 (3 : ℝ) ++ List.replicate 12 (-3)).map
        (fun x => (x - 0) ^ 2)).sum = 216 := by
      norm_num [List.map_append, List.map_replicate, List.sum_append,
        List.sum_replicate, nsmul_eq_mul]
    rw [hsum]
    have hlen : ((List.replicate 12 (3 : ℝ) ++ List.replicate 12 (-3)).length : ℝ)
        = 24 := by norm_num
    rw [hlen, show (216 : ℝ) / 24 = 3 ^ 2 by norm_num,
      Real.sqrt_sq (by norm_num : (0 : ℝ) ≤ 3)]
  have h := claim_C1
    (fun _ => some (List.replicate 12 (3 : ℝ) ++ List.replicate 12 (-3)))
    (List.replicate 24 (0 : ℝ))
    (List.replicate 12 (3 : ℝ) ++ List.replicate 12 (-3)) 1 (-3)
    (by simp) rfl hlast (by rw [hnp]; norm_num)
  have h1 : (detect_anomaly
      (fun _ => some (List.replicate 12 (3 : ℝ) ++ List.replicate 12 (-3)))
      (List.replicate 24 (0 : ℝ)) 1).1 = false :=
    h.2.2 (by rw [hnp]; norm_num)
  have h2 : (detect_anomaly
      (fun _ => some (List.replicate 12 (3 : ℝ) ++ List.replicate 12 (-3)))
      (List.replicate 24 (0 : ℝ)) 1).2 = 1 := by
    rw [h.1, hnp]
    norm_num
  exact Prod.ext h1 h2

/-- Claim C2: on any input of length strictly less than 24 the scorer
returns `(False, 0.0)` immediately, and the decomposition routine is never
invoked: the result does not depend on the decomposition function at all. -/
theorem claim_C2 (stlResidA stlResidB : List ℝ → Option (List ℝ))
    (ratios : List ℝ) (threshold : ℝ) (hlen : ratios.length < 24) :
    detect_anomaly stlResidA ratios threshold = (false, 0)
    ∧ detect_anomaly stlResidA ratios threshold
        = detect_anomaly stlResidB ratios threshold := by
  refine ⟨detect_anomaly_short stlResidA ratios threshold hlen, ?_⟩
  rw [detect_anomaly_short stlResidA ratios threshold hlen,
    detect_anomaly_short stlResidB ratios threshold hlen]

/-- Witness for C2: a 23-element history yields the zero verdict whether the
decomposition function fails or succeeds, since it is never consulted. -/
theorem claim_C2_witness :
    detect_anomaly (fun _ => none) (List.replicate 23 (1 : ℝ)) 3 = (false, 0)
    ∧ detect_anomaly (fun _ => none) (List.replicate 23 (1 : ℝ)) 3
        = detect_anomaly (fun l => some l) (List.replicate 23 (1 : ℝ)) 3 :=
  claim_C2 (fun _ => none) (fun l => some l) (List.replicate 23 (1 : ℝ)) 3
    (by simp)

/-- Claim C4: the scorer never propagates a failure: for histories of
length at least 24, a decomposition that raises (modelled by `none`) or
yields an empty residual array (so that `residuals[-1]` raises, modelled by
`getLast?` returning `none`) is caught and resolves to the well-defined
verdict `(False, 0.0)`. The remaining steps (standard deviation, absolute
value, division, comparison) are total in the embedding, matching the
source where the enclosing `try/except` also covers them. -/
theorem claim_C4 (stlResid : List ℝ → Option (List ℝ)) (ratios : List ℝ)
    (threshold : ℝ) (hlen : 24 ≤ ratios.length)
    (hfail : stlResid ratios = none ∨ stlResid ratios = some []) :
    detect_anomaly stlResid ratios threshold = (false, 0) := by
  have hl : ¬ ratios.length < 24 := by omega
  rcases hfail with h | h
  · unfold detect_anomaly
    simp only [h, if_neg hl]
  · unfold detect_anomaly
    simp only [h, if_neg hl, List.getLast?_nil]

/-- Witness for C4: a decomposition that raises on a 24-element history is
caught and yields the zero verdict. -/
theorem claim_C4_witness :
    detect_anomaly (fun _ => none) (List.replicate 24 (0 : ℝ)) 3 = (false, 0) :=
  claim_C4 (fun _ => none) (List.replicate 24 (0 : ℝ)) 3 (by simp) (Or.inl rfl)

/-- Claim C5: `resid_std` is the population standard deviation of the full
residual sequence (its square is the mean squared deviation over the whole
list, divisor `n`, not `n - 1`); whenever it is zero the scorer returns
`(False, 0.0)`; a constant residual sequence has zero standard deviation,
so feeding 24 identical values (for which the decomposition residuals are
constant) yields `is_anomaly = false` and `score = 0.0`. -/
theorem claim_C5 :
    (∀ (stlResid : List ℝ → Option (List ℝ)) (ratios residuals : List ℝ)
        (threshold r : ℝ), 24 ≤ ratios.length →
        stlResid ratios = some residuals → residuals.getLast? = some r →
        npStd residuals = 0 →
        detect_anomaly stlResid ratios threshold = (false, 0))
    ∧ (∀ xs : List ℝ,
        npStd xs ^ 2 = (xs.map (fun x => (x - listMean xs) ^ 2)).sum / xs.length)
    ∧ (∀ (n : ℕ) (c : ℝ), npStd (List.replicate n c) = 0)
    ∧ (∀ (stlResid : List ℝ → Option (List ℝ)) (threshold c d : ℝ) (n : ℕ),
        stlResid (List.replicate 24 c) = some (List.replicate (n + 1) d) →
        detect_anomaly stlResid (List.replicate 24 c) threshold = (false, 0)) := by
  have hmain : ∀ (stlResid : List ℝ → Option (List ℝ))
      (ratios residuals : List ℝ) (threshold r : ℝ), 24 ≤ ratios.length →
      stlResid ratios = some residuals → residuals.getLast? = some r →
      npStd residuals = 0 →
      detect_anomaly stlResid ratios threshold = (false, 0) := by
    intro stlResid ratios residuals threshold r hlen hfit hlast hstd0
    rw [detect_anomaly_of_some stlResid ratios residuals threshold r
      (by omega) hfit hlast, if_pos hstd0]
  refine ⟨hmain, npStd_sq, npStd_replicate, ?_⟩
  intro stlResid threshold c d n hfit
  exact hmain stlResid (List.replicate 24 c) (List.replicate (n + 1) d)
    threshold d (by simp) hfit (getLast_replicate_succ n d)
    (npStd_replicate (n + 1) d)

/-- Witness for C5: 24 identical ratios of 5.0 with the (exact) constant
residual sequence produced by decomposing a constant series yield the
degenerate verdict. -/
theorem claim_C5_witness :
    detect_anomaly (fun _ => some (List.replicate 24 (0 : ℝ)))
      (List.replicate 24 (5 : ℝ)) 3 = (false, 0) :=
  claim_C5.2.2.2 (fun _ => some (List.replicate 24 (0 : ℝ))) 3 5 0 23 rfl

/-- Claim C8: for every input list and every non-negative threshold the
returned pair is internally consistent: the anomaly flag is true exactly
when the returned score strictly exceeds the threshold (every degraded path
returns score 0 with flag false, and 0 never exceeds a non-negative
threshold). -/
theorem claim_C8 (stlResid : List ℝ → Option (List ℝ)) (ratios : List ℝ)
    (threshold : ℝ) (ht : 0 ≤ threshold) :
    ((detect_anomaly stlResid ratios threshold).1 = true
      ↔ (detect_anomaly stlResid ratios threshold).2 > threshold) := by
  rcases detect_anomaly_cases stlResid ratios threshold with h | ⟨residuals, r, _, _, _, h⟩
  · rw [h]
    simp only [Prod.fst, Prod.snd]
    constructor
    · intro hfalse
      exact absurd hfalse (by simp)
    · intro h0
      exact absurd h0 (not_lt.mpr ht)
  · rw [h]
    by_cases hsc : |r| / npStd residuals > threshold
    · simp [hsc]
    · simp [hsc]

/-- Witness for C8 at the default threshold 3 on a degraded input. -/
theorem claim_C8_witness :
    ((detect_anomaly (fun _ => none) ([] : List ℝ) 3).1 = true
      ↔ (detect_anomaly (fun _ => none) ([] : List ℝ) 3).2 > 3) :=
  claim_C8 (fun _ => none) [] 3 (by norm_num)

/-- Claim C9: the returned score is always non-negative: every degraded
path returns 0 and the scored path returns an absolute value divided by a
non-negative (indeed nonzero, hence positive) standard deviation. -/
theorem claim_C9 (stlResid : List ℝ → Option (List ℝ)) (ratios : List ℝ)
    (threshold : ℝ) :
    0 ≤ (detect_anomaly stlResid ratios threshold).2 := by
  rcases detect_anomaly_cases stlResid ratios threshold with h | ⟨residuals, r, _, _, _, h⟩
  · rw [h]
  · rw [h]
    exact div_nonneg (abs_nonneg r) (npStd_nonneg residuals)

/-- Claim C10: scoring does not mutate the history it is given: in the
state-passing embedding that follows the source's variable usage (the input
is copied into a fresh array before any computation), every return path
hands back the caller's list unchanged, with unchanged length and contents,
and the verdict agrees with the direct embedding. -/
theorem claim_C10 (stlResid : List ℝ → Option (List ℝ)) (ratios : List ℝ)
    (threshold : ℝ) :
    (detect_anomaly_state stlResid ratios threshold).2 = ratios
    ∧ (detect_anomaly_state stlResid ratios threshold).2.length = ratios.length
    ∧ (detect_anomaly_state stlResid ratios threshold).1
        = detect_anomaly stlResid ratios threshold := by
  rw [detect_anomaly_state_eq]
  exact ⟨rfl, rfl, rfl⟩
